import Mathlib

/-
A verification development of the astro image asset pipeline.

The definitions below are a shallow embedding, in Lean 4, of the pipeline's
source:
  * the `squoosh` local image service's `transform` operation
    (`packages/astro/src/assets/services/squoosh.ts` portion of the corpus);
  * the `astro:assets:esm` build-time rewriter's `load` hook and the
    `astro:assets` plugin's `renderChunk` finalize hook and dev-server
    middleware (`vite-plugin-assets` portion of the corpus);
  * the remote-image dimension validation exercised by the repository's
    tests (the validating code itself is not part of the corpus, so it is
    modelled from the specification).

External collaborators (the file system, the bundler's `emitFile` /
`getFileName`, the metadata extractor `imageMetadata`, and the pluggable
service's `parseURL` / `transform`) are passed in as explicit function
arguments. Machine byte buffers are modelled as `List Nat`; JavaScript
truthiness on optional numbers and strings is made explicit
(`truthyNat`, a `some 0` width is falsy, exactly as `if (transform.width)`
is false for `0` in the source).
-/

/- ### Small string / list utilities shared by the embedding -/

/-- First value bound to key `k` in an association list; models
`URLSearchParams.get` (which returns the first matching parameter). -/
def lookupParam (params : List (String × String)) (k : String) : Option String :=
  (params.find? (fun p => p.1 == k)).map (·.2)

/-- `pat` starts the list `s`. -/
def listStartsWith : List Char → List Char → Bool
  | [], _ => true
  | _ :: _, [] => false
  | p :: ps, c :: cs => p == c && listStartsWith ps cs

/-- `pat` occurs somewhere (contiguously) inside `s`. -/
def listOccurs (pat : List Char) : List Char → Bool
  | [] => listStartsWith pat []
  | c :: cs => listStartsWith pat (c :: cs) || listOccurs pat cs

/-- Boolean substring test: `pat` occurs somewhere inside `s`. -/
def strContainsB (s pat : String) : Bool :=
  listOccurs pat.data s.data

/-- `s` starts with `pat` (models `String.prototype.startsWith`). -/
def strStartsWith (s pat : String) : Bool :=
  listStartsWith pat.data s.data

/-- Boolean suffix test on strings. -/
def strEndsWith (s sfx : String) : Bool :=
  listStartsWith sfx.data.reverse s.data.reverse

/-- Split a character list at every occurrence of the separator, keeping
empty pieces (the semantics of `String.split` on a one-character
separator). -/
def splitChar (sep : Char) : List Char → List (List Char)
  | [] => [[]]
  | c :: cs =>
    let r := splitChar sep cs
    if c == sep then [] :: r
    else
      match r with
      | [] => [[c]]
      | h :: t => (c :: h) :: t

/-- Split a string at every occurrence of a one-character separator. -/
def strSplitChar (s : String) (sep : Char) : List String :=
  (splitChar sep s.data).map String.mk

/-- Parse a (nonempty) all-digit string into a natural number. -/
def parseNatAux : List Char → Nat → Option Nat
  | [], acc => some acc
  | c :: cs, acc => if c.isDigit then parseNatAux cs (acc * 10 + (c.toNat - 48)) else none

/-- Decimal parse of a string; `none` on the empty string or on any
non-digit character. -/
def strToNatOpt (s : String) : Option Nat :=
  match s.data with
  | [] => none
  | cs => parseNatAux cs 0

/-- The final path segment (text after the last `/`), as used by
`path.basename` and the `mime` package. -/
def lastSegment (p : String) : String :=
  (strSplitChar p '/').getLastD p

/-- Model of node's `path.extname`: the last `.`-suffix of the final
segment; empty when the segment has no dot or only a leading dot. -/
def extname (p : String) : String :=
  let b := lastSegment p
  let parts := strSplitChar b '.'
  if parts.length ≤ 1 then ""
  else if parts.length == 2 && parts.headD "" == "" then ""
  else "." ++ parts.getLastD ""

/-- Model of node's `path.basename(p, sfx)`: the final segment, with the
suffix `sfx` removed when it is a proper suffix of that segment. -/
def pathBasename (p : String) (sfx : String) : String :=
  let b := lastSegment p
  if sfx != "" && sfx != b && strEndsWith b sfx then b.dropRight sfx.length else b

/- ### Data model (`assets/types.ts`) -/

/-- `ImageMetadata`: the shape returned by ESM imports of images. -/
structure ImageMetadata where
  src : String
  width : Nat
  height : Nat
  format : String
deriving DecidableEq

/-- Intrinsic dimensions and format, as produced by the Metadata
Extractor (`imageMetadata`) before a `src` is attached. -/
structure MetaDims where
  width : Nat
  height : Nat
  format : String
deriving DecidableEq

/-- `ImageQuality`: a named preset or a 0–100 number. -/
inductive ImageQuality where
  | preset (s : String)
  | num (n : Nat)
deriving DecidableEq

/-- The `src` of an `ImageTransform` is either local metadata or a plain
(remote) URL string. -/
inductive ImageSrc where
  | metadata (m : ImageMetadata)
  | remote (url : String)
deriving DecidableEq

/-- `ImageTransform`: one requested transformation of an image. -/
structure ImageTransform where
  src : ImageSrc
  width : Option Nat := none
  height : Option Nat := none
  quality : Option ImageQuality := none
  format : Option String := none
deriving DecidableEq

/-- JavaScript truthiness of an optional number: `undefined` and `0` are
falsy. -/
def truthyNat : Option Nat → Bool
  | none => false
  | some n => n != 0

/- ### The squoosh local service's `transform` (services/squoosh.ts) -/

/-- One squoosh pipeline operation. The source only ever pushes
`{ type: 'resize', width }` or `{ type: 'resize', height }`, so a resize
carries exactly one optional dimension pair. -/
inductive Operation where
  | resize (width : Option Nat) (height : Option Nat)
deriving DecidableEq

/-- Output format chosen by `transform`: `format` when truthy, else the
`'webp'` default (`if (!format) format = 'webp'`). -/
def squooshFormat (t : ImageTransform) : String :=
  match t.format with
  | none => "webp"
  | some f => if f == "" then "webp" else f

/-- The operation list built by the squoosh `transform`:
`if (transform.height && !transform.width)` push a height resize,
`else if (transform.width)` push a width resize, else none. -/
def squooshOperations (t : ImageTransform) : List Operation :=
  if truthyNat t.height && !truthyNat t.width then
    [.resize none t.height]
  else if truthyNat t.width then
    [.resize t.width none]
  else
    []

/-- The squoosh `transform`: runs `processBuffer` (the external codec
pool, passed as a function) over the operation list and returns the data
with the chosen format. -/
def squooshTransform
    (processBuffer : List Nat → List Operation → String → Option ImageQuality → List Nat)
    (inputBuffer : List Nat) (t : ImageTransform) : List Nat × String :=
  (processBuffer inputBuffer (squooshOperations t) (squooshFormat t) t.quality,
   squooshFormat t)

/- ### Remote-image validation (modelled from the spec; exercised by the
repository's `astro:image` dev tests) -/

/-- Modelled from the spec: the remote-image dimension validation that
runs before any transform or URL build. The validating source is not part
of the corpus (only its tests are); per the specification, a remote
(string-`src`) transform missing both dimensions fails with a
"width and height are required" message and one missing only `height`
fails with a "height is required" message, with the exact messages taken
from the repository's tests. -/
def validateTransform (t : ImageTransform) : Except String ImageTransform :=
  match t.src with
  | .metadata _ => .ok t
  | .remote _ =>
    if t.width.isNone && t.height.isNone then
      .error "For remote images, width and height are required."
    else if t.height.isNone then
      .error "For remote images, height is required."
    else
      .ok t

/-- Modelled from the spec: rendering one image use. An authoring error
is logged (first component) and the image is omitted from output (second
component is `none`); the function is total, so an invalid transform
never crashes the server. -/
def renderImage (t : ImageTransform) : List String × Option ImageTransform :=
  match validateTransform t with
  | .error msg => ([msg], none)
  | .ok t' => ([], some t')

/- ### The `astro:assets:esm` build-time rewriter's `load` hook -/

/-- The watched image extensions of the `load` hook's regular expression
`/\.(heic|heif|avif|jpeg|jpg|png|tiff|webp|gif)$/`. -/
def imageExts : List String :=
  [".heic", ".heif", ".avif", ".jpeg", ".jpg", ".png", ".tiff", ".webp", ".gif"]

/-- `true` when the module id matches the watched image extensions. -/
def isImageId (id : String) : Bool :=
  imageExts.any (fun e => strEndsWith id e)

/-- Serialization of a `file:` URL with query parameters, as produced by
`pathToFileURL(id)` followed by `searchParams.append` and `toString()`
(parameter values here are digits and format names, which URL encoding
leaves unchanged). -/
def urlToString (pathname : String) (params : List (String × String)) : String :=
  "file://" ++ pathname ++
    (if params.isEmpty then ""
     else "?" ++ String.intercalate "&" (params.map (fun kv => kv.1 ++ "=" ++ kv.2)))

/-- One asset handed to the bundler's `emitFile`. -/
structure EmittedAsset where
  name : String
  source : List Nat
  assetType : String
deriving DecidableEq

/-- What the `load` hook of `astro:assets:esm` produces for an image
module: the assets it emitted and the metadata object whose JSON
serialization is the returned module code
(`export default ${JSON.stringify(meta)}`). -/
structure EsmLoadResult where
  emitted : List EmittedAsset
  meta : ImageMetadata
deriving DecidableEq

/-- The `load` hook of the `astro:assets:esm` plugin. `watchMode` is the
bundler's `this.meta.watchMode`; `extractMeta` is the external
`imageMetadata` extractor (keyed here by the module id the hook turns
into a `file:` URL); `readFile` is `fs.readFile`; `emitFile` is the
bundler's asset-emission callback returning the assigned handle.
Returns `none` ("return nothing") when the id does not match the image
extensions or when metadata extraction fails. -/
def esmLoad (watchMode : Bool) (extractMeta : String → Option MetaDims)
    (readFile : String → List Nat) (emitFile : EmittedAsset → String)
    (id : String) : Option EsmLoadResult :=
  if isImageId id then
    match extractMeta id with
    | none => none
    | some dims =>
      if !watchMode then
        let filename := pathBasename id (extname id ++ "." ++ dims.format)
        let asset : EmittedAsset := ⟨filename, readFile id, "asset"⟩
        let handle := emitFile asset
        some ⟨[asset],
          ⟨"__ASTRO_ASSET_IMAGE__" ++ handle ++ "__", dims.width, dims.height, dims.format⟩⟩
      else
        some ⟨[],
          ⟨urlToString id
              [("origWidth", toString dims.width), ("origHeight", toString dims.height),
               ("origFormat", dims.format)],
            dims.width, dims.height, dims.format⟩⟩
  else none

/- ### The dev-time image responder (`configureServer` middleware) -/

/-- The extension-to-type table of the external `mime` package, restricted
to the image types this pipeline can meet. -/
def mimeTable : List (String × String) :=
  [("png", "image/png"), ("jpg", "image/jpeg"), ("jpeg", "image/jpeg"),
   ("webp", "image/webp"), ("gif", "image/gif"), ("avif", "image/avif"),
   ("heic", "image/heic"), ("heif", "image/heif"), ("tiff", "image/tiff"),
   ("tif", "image/tiff"), ("svg", "image/svg+xml")]

/-- Model of the external `mime.getType(path)`: the extension is the text
after the last `.` of the last path segment; the lookup answers only when
the segment really has an extension (`hasDot`) or the input is a bare
extension with no path separator. -/
def mimeGetType (path : String) : Option String :=
  let last := lastSegment path
  let parts := strSplitChar last '.'
  let ext := parts.getLastD last
  if ext.length < last.length - 1 ∨ ¬ (last.length < path.length) then
    lookupParam mimeTable ext
  else none

/-- Decode a query string (`k=v` pairs joined by `&`); empty pairs are
skipped and a pair's value keeps any further `=` signs, as
`URLSearchParams` does (parameter values in this pipeline need no
percent-decoding). -/
def parseQuery (q : String) : List (String × String) :=
  (strSplitChar q '&').filterMap (fun kv =>
    if kv == "" then none
    else
      match strSplitChar kv '=' with
      | [] => none
      | [k] => some (k, "")
      | k :: vs => some (k, String.intercalate "=" vs))

/-- Split the `href` value into pathname and decoded query parameters, as
`new URL(filePath, 'file:')` exposes them through `.pathname` and
`.searchParams`. -/
def parseFileURL (s : String) : String × List (String × String) :=
  let s1 := if strStartsWith s "file://" then s.drop 7 else s
  match strSplitChar s1 '?' with
  | [] => ("", [])
  | [p] => (p, [])
  | p :: rest => (p, parseQuery (String.intercalate "?" rest))

/-- Modelled from the spec: the decode side of the URL/Query Codec
(`getOrigQueryParams` of `assets/utils/queryParams`, whose source is not
part of the corpus). Recovers the original width, height and format from
the module URL's own query parameters, reconstructing the dimensions as
integers; answers `none` when any of the three parameters is missing or a
dimension does not parse as a number. -/
def getOrigQueryParams (params : List (String × String)) : Option MetaDims :=
  match lookupParam params "origWidth", lookupParam params "origHeight",
      lookupParam params "origFormat" with
  | some w, some h, some f =>
    match strToNatOpt w, strToNatOpt h with
    | some wn, some hn => some ⟨wn, hn, f⟩
    | _, _ => none
  | _, _, _ => none

/-- The responder's two-step metadata recovery: first the URL's own query
parameters, then (for images coming from Markdown, say) the Metadata
Extractor on the file bytes. -/
def recoverMeta (qs : List (String × String)) (file : List Nat)
    (extractMeta : List Nat → Option MetaDims) : Option MetaDims :=
  match getOrigQueryParams qs with
  | some m => some m
  | none => extractMeta file

/-- A request reaching the middleware: the URL's decoded pathname and
query parameters (`req.url` starts with `/_image` exactly when the
pathname does, the query following the first `?`). -/
structure DevRequest where
  pathname : String
  params : List (String × String)
deriving DecidableEq

/-- What the middleware does with a request: delegate to the next
handler, surface a file-read failure, or stream a response with the
given headers and body bytes. -/
inductive MWResponse where
  | next
  | ioError (path : String)
  | stream (contentType : String) (cacheControl : String) (data : List Nat)
deriving DecidableEq

/-- The middleware's outcome together with its observable effects: which
files it read, and whether it invoked the service's `parseURL` /
`transform`. -/
structure MWTrace where
  response : MWResponse
  reads : List String
  parsedURL : Bool
  transformCalled : Bool
deriving DecidableEq

/-- The `configureServer` middleware of the `astro:assets` plugin.
`isLocal` is `isLocalService(globalThis.astroImageService)`; `readFile`
is `fs.readFile` (`none` models a thrown read error); `extractMeta` is
the external `imageMetadata`; `parseURL` and `transformFn` are the active
service's operations, `transformFn` returning the result's data and
format. -/
def devImageMiddleware (isLocal : Bool) (readFile : String → Option (List Nat))
    (extractMeta : List Nat → Option MetaDims)
    (parseURL : DevRequest → Option ImageTransform)
    (transformFn : List Nat → ImageTransform → List Nat × String)
    (req : DevRequest) : MWTrace :=
  if strStartsWith req.pathname "/_image" then
    if !isLocal then ⟨.next, [], false, false⟩
    else
      match lookupParam req.params "href" with
      | none => ⟨.next, [], false, false⟩
      | some fp =>
        if fp == "" then ⟨.next, [], false, false⟩
        else
          let fpath := (parseFileURL fp).1
          match readFile fpath with
          | none => ⟨.ioError fpath, [fpath], false, false⟩
          | some file =>
            match recoverMeta (parseFileURL fp).2 file extractMeta with
            | none => ⟨.next, [fpath], false, false⟩
            | some meta =>
              match parseURL req with
              | none =>
                ⟨.stream ((mimeGetType req.pathname).getD ("image/" ++ meta.format))
                    "max-age=360000" file,
                  [fpath], true, false⟩
              | some tr =>
                ⟨.stream ((mimeGetType req.pathname).getD ("image/" ++ (transformFn file tr).2))
                    "max-age=360000" (transformFn file tr).1,
                  [fpath], true, true⟩
  else ⟨.next, [], false, false⟩

/- ### The finalize-phase `renderChunk` rewriter (`astro:assets`) -/

/-- The placeholder marker of the regular expression
`__ASTRO_ASSET_IMAGE__([a-z\d]{8})__(?:_(.*?)__)?`. -/
def assetMarker : String := "__ASTRO_ASSET_IMAGE__"

/-- A character of the hash class `[a-z\d]`. -/
def isHashChar (c : Char) : Bool :=
  ('a' ≤ c && c ≤ 'z') || c.isDigit

/-- A character the regular expression's `.` can match: anything but the
JavaScript line terminators (LF, CR, LS U+2028, PS U+2029). -/
def isDotChar (c : Char) : Bool :=
  c != '\n' && c != '\r' && c != Char.ofNat 8232 && c != Char.ofNat 8233

/-- Drop `pat` from the front of `cs` when `cs` starts with it. -/
def dropPref : List Char → List Char → Option (List Char)
  | [], cs => some cs
  | _ :: _, [] => none
  | p :: ps, c :: cs => if c == p then dropPref ps cs else none

/-- The lazy tail of the optional group `_(.*?)__` after its leading
underscore: the shortest run of `.`-matchable characters followed by
`__`; returns the run and the text after the closing `__`. -/
def findSfx : List Char → Option (List Char × List Char)
  | [] => none
  | c1 :: rest1 =>
    match rest1 with
    | [] => none
    | c2 :: rest =>
      if c1 == '_' && c2 == '_' then some ([], rest)
      else if isDotChar c1 then
        (findSfx rest1).map (fun pr => (c1 :: pr.1, pr.2))
      else none

/-- The part of the placeholder regular expression after the hash: the
mandatory `__`, then optionally (and preferentially) the group
`_(.*?)__`. Returns the captured postfix (empty when the optional group
takes no part, as the source's `postfix = ''` default) and the text
after the match. -/
def matchAfterHash : List Char → Option (List Char × List Char)
  | a :: b :: cs2 =>
    if a == '_' && b == '_' then
      match cs2 with
      | c :: cs3 =>
        if c == '_' then
          match findSfx cs3 with
          | some pr => some (pr.1, pr.2)
          | none => some ([], cs2)
        else some ([], cs2)
      | [] => some ([], cs2)
    else none
  | _ => none

/-- Match the placeholder regular expression at the head of `cs`: the
marker, an 8-character hash of `[a-z\d]`, then `matchAfterHash`. Returns
the hash, the captured postfix and the text after the whole match. -/
def matchToken (cs : List Char) : Option (List Char × List Char × List Char) :=
  match dropPref assetMarker.data cs with
  | none => none
  | some cs1 =>
    if (cs1.take 8).length == 8 && (cs1.take 8).all isHashChar then
      match matchAfterHash (cs1.drop 8) with
      | some pr => some (cs1.take 8, pr.1, pr.2)
      | none => none
    else none

/-- One left-to-right pass of the global replacement
(`while ((match = assetUrlRE.exec(code)))` plus `s.overwrite`), with
explicit fuel (one unit per scanned position; `length` is always
enough). Returns the rewritten text together with the "any match found"
flag (the source's `s` being defined). `getFileName` is the bundler's
hash-to-filename query and `base` is `resolvedConfig.base`. -/
def replaceAux (getFileName : String → String) (base : String) :
    Nat → List Char → List Char × Bool
  | 0, cs => (cs, false)
  | _ + 1, [] => ([], false)
  | fuel + 1, c :: cs =>
    match matchToken (c :: cs) with
    | some hpr =>
      ((base ++ getFileName (String.mk hpr.1) ++ String.mk hpr.2.1).data
          ++ (replaceAux getFileName base fuel hpr.2.2).1,
        true)
    | none =>
      let r := replaceAux getFileName base fuel cs
      (c :: r.1, r.2)

/-- The global replacement over a whole character list. -/
def replaceTokens (getFileName : String → String) (base : String)
    (cs : List Char) : List Char × Bool :=
  replaceAux getFileName base cs.length cs

/-- Whether the placeholder regular expression matches anywhere. -/
def hasTokenAux : Nat → List Char → Bool
  | 0, _ => false
  | _ + 1, [] => false
  | fuel + 1, c :: cs => (matchToken (c :: cs)).isSome || hasTokenAux fuel cs

/-- Whether a chunk's text contains a placeholder token. -/
def hasToken (s : String) : Bool :=
  hasTokenAux s.data.length s.data

/-- The `renderChunk` hook: `none` models the hook's `null` return (no
token found — keep the chunk untouched and generate no sourcemap), and
`some` carries the rewritten code (the sourcemap is regenerated from the
same rewritten string when sourcemaps are enabled). -/
def renderChunk (getFileName : String → String) (base : String)
    (code : String) : Option String :=
  let r := replaceTokens getFileName base code.data
  if r.2 then some (String.mk r.1) else none

/-- The rewritten text of a chunk (the `some`-case payload of
`renderChunk`). -/
def rewriteAll (getFileName : String → String) (base : String)
    (code : String) : String :=
  String.mk (replaceTokens getFileName base code.data).1

/-- A placeholder token carrying a postfix group. -/
def mkAssetToken (hash sfx : String) : String :=
  assetMarker ++ hash ++ "__" ++ "_" ++ sfx ++ "__"

/-- A placeholder token without a postfix group. -/
def mkBareAssetToken (hash : String) : String :=
  assetMarker ++ hash ++ "__"

/-- No two adjacent underscores anywhere in the list. -/
def noDU : List Char → Bool
  | [] => true
  | c1 :: rest =>
    match rest with
    | [] => true
    | c2 :: _ => !(c1 == '_' && c2 == '_') && noDU rest

/- ### Supporting lemmas for the rewriter -/

/-- Appending distributes over `String.data`. -/
theorem strData_append (a b : String) : (a ++ b).data = a.data ++ b.data := by
  cases a
  cases b
  rfl

/-- `String.mk` turns list append into string append. -/
theorem strMk_append (a b : List Char) : String.mk (a ++ b) = String.mk a ++ String.mk b := rfl

/-- `String.mk` undoes `String.data`. -/
theorem strMk_data (s : String) : String.mk s.data = s := rfl

/-- The marker's character list. -/
theorem markerData :
    assetMarker.data
      = ['_', '_', 'A', 'S', 'T', 'R', 'O', '_', 'A', 'S', 'S', 'E', 'T', '_',
         'I', 'M', 'A', 'G', 'E', '_', '_'] := rfl

/-- `dropPref` recovers the remainder of a known concatenation. -/
theorem dropPref_append (ps cs : List Char) : dropPref ps (ps ++ cs) = some cs := by
  induction ps with
  | nil => rfl
  | cons p ps ih => simp [dropPref, ih]

/-- `dropPref` consumes exactly the pattern's length. -/
theorem dropPref_length (ps cs r : List Char) (h : dropPref ps cs = some r) :
    r.length + ps.length = cs.length := by
  induction ps generalizing cs with
  | nil =>
    simp [dropPref] at h
    simp [h]
  | cons p ps ih =>
    cases cs with
    | nil => simp [dropPref] at h
    | cons c cs' =>
      simp only [dropPref] at h
      split at h
      · have := ih cs' h
        simp only [List.length_cons]
        omega
      · exact absurd h (by simp)

/-- One-step equation for `findSfx` on a two-element head. -/
theorem findSfx_cons (c1 c2 : Char) (rest : List Char) :
    findSfx (c1 :: c2 :: rest)
      = (if c1 == '_' && c2 == '_' then some ([], rest)
         else if isDotChar c1 then
           (findSfx (c2 :: rest)).map (fun pr => (c1 :: pr.1, pr.2))
         else none) := rfl

/-- `findSfx` never returns a longer remainder than its input. -/
theorem findSfx_length (cs : List Char) (pr : List Char × List Char)
    (h : findSfx cs = some pr) : pr.2.length ≤ cs.length := by
  induction cs generalizing pr with
  | nil => simp [findSfx] at h
  | cons c1 rest1 ih =>
    cases rest1 with
    | nil => simp [findSfx] at h
    | cons c2 rest =>
      rw [findSfx_cons] at h
      split at h
      · cases h
        simp only [List.length_cons]
        omega
      · split at h
        · cases hm : findSfx (c2 :: rest) with
          | none => rw [hm] at h; exact absurd h (by simp)
          | some pr' =>
            rw [hm] at h
            cases h
            have := ih pr' hm
            simp only [List.length_cons]
            simp only [List.length_cons] at this
            omega
        · exact absurd h (by simp)

/-- A successful `matchAfterHash` consumes at least the two mandatory
underscores. -/
theorem matchAfterHash_length (cs : List Char) (pr : List Char × List Char)
    (h : matchAfterHash cs = some pr) : pr.2.length + 2 ≤ cs.length := by
  cases cs with
  | nil => simp [matchAfterHash] at h
  | cons a rest1 =>
    cases rest1 with
    | nil => simp [matchAfterHash] at h
    | cons b cs2 =>
      simp only [matchAfterHash] at h
      split at h
      · split at h
        next c cs3 =>
          split at h
          · cases hf : findSfx cs3 with
            | none =>
              rw [hf] at h
              cases h
              simp only [List.length_cons]
              omega
            | some pr' =>
              rw [hf] at h
              cases h
              have := findSfx_length cs3 pr' hf
              simp only [List.length_cons]
              omega
          · cases h
            simp only [List.length_cons]
            omega
        next =>
          cases h
          simp
      · exact absurd h (by simp)

/-- A successful `matchToken` leaves a strictly shorter remainder. -/
theorem matchToken_length (cs h p rest : List Char)
    (hm : matchToken cs = some (h, p, rest)) : rest.length < cs.length := by
  unfold matchToken at hm
  split at hm
  · exact absurd hm (by simp)
  next cs1 heq =>
    have hlen1 : cs1.length + assetMarker.data.length = cs.length :=
      dropPref_length _ _ _ heq
    have hmk : assetMarker.data.length = 21 := rfl
    split at hm
    · split at hm
      next pr heq2 =>
        have h2 := matchAfterHash_length _ _ heq2
        have h3 : (cs1.drop 8).length = cs1.length - 8 := List.length_drop _ _
        cases hm
        omega
      next => exact absurd hm (by simp)
    · exact absurd hm (by simp)

/-- `replaceAux` does not depend on the fuel once the fuel covers the
input's length. -/
theorem replaceAux_fuel (gf : String → String) (base : String) :
    ∀ f1 f2 cs, cs.length ≤ f1 → cs.length ≤ f2 →
      replaceAux gf base f1 cs = replaceAux gf base f2 cs := by
  intro f1
  induction f1 with
  | zero =>
    intro f2 cs h1 h2
    have hnil : cs = [] := List.eq_nil_of_length_eq_zero (Nat.le_zero.mp h1)
    subst hnil
    cases f2 <;> rfl
  | succ f1 ih =>
    intro f2 cs h1 h2
    cases cs with
    | nil => cases f2 <;> rfl
    | cons c cs' =>
      cases f2 with
      | zero => simp at h2
      | succ f2' =>
        simp only [List.length_cons] at h1 h2
        cases hm : matchToken (c :: cs') with
        | some hpr =>
          have hlt : hpr.2.2.length < (c :: cs').length :=
            matchToken_length _ _ _ _ hm
          simp only [List.length_cons] at hlt
          simp only [replaceAux, hm]
          rw [ih f2' hpr.2.2 (by omega) (by omega)]
        | none =>
          simp only [replaceAux, hm]
          rw [ih f2' cs' (by omega) (by omega)]

/-- The found-a-token flag of `replaceAux` agrees with `hasTokenAux`. -/
theorem replaceAux_flag (gf : String → String) (base : String) :
    ∀ fuel cs, (replaceAux gf base fuel cs).2 = hasTokenAux fuel cs := by
  intro fuel
  induction fuel with
  | zero => intro cs; rfl
  | succ f ih =>
    intro cs
    cases cs with
    | nil => rfl
    | cons c cs' =>
      cases hm : matchToken (c :: cs') with
      | some hpr => simp [replaceAux, hasTokenAux, hm]
      | none => simp [replaceAux, hasTokenAux, hm, ih]

/-- When no token occurs, `replaceAux` reproduces its input exactly. -/
theorem replaceAux_untouched (gf : String → String) (base : String) :
    ∀ fuel cs, hasTokenAux fuel cs = false → (replaceAux gf base fuel cs).1 = cs := by
  intro fuel
  induction fuel with
  | zero => intro cs _; rfl
  | succ f ih =>
    intro cs hno
    cases cs with
    | nil => rfl
    | cons c cs' =>
      cases hm : matchToken (c :: cs') with
      | some hpr =>
        rw [hasTokenAux, hm] at hno
        simp at hno
      | none =>
        rw [hasTokenAux, hm] at hno
        simp only [Option.isSome_none, Bool.false_or] at hno
        simp [replaceAux, hm, ih cs' hno]

/-- One-step equation for `noDU` on two leading characters. -/
theorem noDU_cons2 (c1 c2 : Char) (rest : List Char) :
    noDU (c1 :: c2 :: rest) = (!(c1 == '_' && c2 == '_') && noDU (c2 :: rest)) := rfl

/-- `findSfx` captures exactly a double-underscore-free run of
`.`-matchable characters in front of the closing `__`. -/
theorem findSfx_append (sfx post : List Char) (hdot : sfx.all isDotChar = true)
    (hnd : noDU (sfx ++ ['_']) = true) :
    findSfx (sfx ++ '_' :: '_' :: post) = some (sfx, post) := by
  induction sfx with
  | nil =>
    rw [List.nil_append, findSfx_cons]
    simp
  | cons c sfx' ih =>
    have hdc : isDotChar c = true := by
      simp only [List.all_cons, Bool.and_eq_true] at hdot
      exact hdot.1
    have hdot' : sfx'.all isDotChar = true := by
      simp only [List.all_cons, Bool.and_eq_true] at hdot
      exact hdot.2
    cases sfx' with
    | nil =>
      have hnd2 : (!(c == '_' && '_' == '_') && noDU ['_']) = true := by
        rw [← noDU_cons2]
        simpa using hnd
      have hc : (c == '_') = false := by
        revert hnd2
        cases hb : c == '_' <;> simp
      rw [List.cons_append, List.nil_append, findSfx_cons]
      rw [hc]
      simp only [Bool.false_and, Bool.false_eq_true, if_false, hdc, if_true]
      rw [findSfx_cons]
      simp
    | cons c2 sfx'' =>
      have hnd2 : (!(c == '_' && c2 == '_') && noDU ((c2 :: sfx'') ++ ['_'])) = true := by
        rw [List.cons_append, ← noDU_cons2]
        simpa using hnd
      have hcc : (c == '_' && c2 == '_') = false := by
        revert hnd2
        cases hb : (c == '_' && c2 == '_') <;> simp
      have hnd' : noDU ((c2 :: sfx'') ++ ['_']) = true := by
        rw [hcc] at hnd2
        simpa using hnd2
      rw [List.cons_append, List.cons_append, findSfx_cons]
      rw [hcc]
      simp only [Bool.false_eq_true, if_false, hdc, if_true]
      rw [← List.cons_append, ih hdot' hnd']
      rfl

/-- `matchToken` on a well-formed token with a postfix group, followed by
arbitrary text. -/
theorem matchToken_mk (hash sfx post : List Char)
    (hlen : hash.length = 8) (hhash : hash.all isHashChar = true)
    (hdot : sfx.all isDotChar = true) (hnd : noDU (sfx ++ ['_']) = true) :
    matchToken
        (assetMarker.data
          ++ (hash ++ (['_', '_'] ++ (['_'] ++ (sfx ++ (['_', '_'] ++ post))))))
      = some (hash, sfx, post) := by
  have hm : matchAfterHash (['_', '_'] ++ (['_'] ++ (sfx ++ (['_', '_'] ++ post))))
      = some (sfx, post) := by
    simp only [List.cons_append, List.nil_append, matchAfterHash]
    simp only [beq_self_eq_true, Bool.and_self, if_true]
    rw [findSfx_append sfx post hdot hnd]
  simp only [matchToken, dropPref_append]
  rw [List.take_left' hlen, List.drop_left' hlen, hlen, hhash]
  simp only [beq_self_eq_true, Bool.and_true, if_true, hm]

/-- `matchToken` on a well-formed bare token (no postfix group), followed
by text that does not begin the optional group. -/
theorem matchToken_mk_bare (hash post : List Char)
    (hlen : hash.length = 8) (hhash : hash.all isHashChar = true)
    (hpost : post.head? ≠ some '_') :
    matchToken (assetMarker.data ++ (hash ++ (['_', '_'] ++ post)))
      = some (hash, [], post) := by
  have hm : matchAfterHash (['_', '_'] ++ post) = some ([], post) := by
    simp only [List.cons_append, List.nil_append, matchAfterHash]
    simp only [beq_self_eq_true, Bool.and_self, if_true]
    cases post with
    | nil => rfl
    | cons c cs =>
      have hc : (c == '_') = false := by
        simp only [List.head?] at hpost
        simpa using hpost
      split
      next c' cs' heq =>
        injection heq with h1 h2
        subst h1
        rw [hc]
        simp
      next heq => exact absurd heq (by simp)
  simp only [matchToken, dropPref_append]
  rw [List.take_left' hlen, List.drop_left' hlen, hlen, hhash]
  simp only [beq_self_eq_true, Bool.and_true, if_true, hm]

/-- One step of `replaceTokens` at a successful match: the whole token is
replaced by `base ++ getFileName hash ++ postfix` and scanning resumes on
the remainder. -/
theorem replaceTokens_match (gf : String → String) (base : String) (c : Char)
    (cs h p rest : List Char)
    (hm : matchToken (c :: cs) = some (h, p, rest)) :
    replaceTokens gf base (c :: cs)
      = ((base ++ gf (String.mk h) ++ String.mk p).data
          ++ (replaceTokens gf base rest).1, true) := by
  unfold replaceTokens
  have hlt : rest.length < (c :: cs).length := matchToken_length _ _ _ _ hm
  simp only [List.length_cons] at hlt
  simp only [List.length_cons, replaceAux, hm]
  rw [replaceAux_fuel gf base cs.length rest.length rest (by omega) le_rfl]

/- ### Theorems for claims C1 and C9 -/

/-- A transform with `width = 0` (present but falsy), used to separate
"given" from "truthy" in the resize-priority claim. -/
def c1ZeroWidthTransform : ImageTransform :=
  { src := .remote "https://example.com/a.png", width := some 0, height := some 100 }

/-- C1 counterexample: the claim reads the resize policy as keyed on the
dimensions being *given* (present). At `width = some 0, height = some 100`
both dimensions are given, yet the squoosh `transform` pushes a height
resize, not the claimed width-only resize, because the source tests
JavaScript truthiness (`0` is falsy), not presence. -/
theorem c1_counterexample :
    c1ZeroWidthTransform.width.isSome = true ∧
    c1ZeroWidthTransform.height.isSome = true ∧
    squooshOperations c1ZeroWidthTransform = [.resize none (some 100)] ∧
    squooshOperations c1ZeroWidthTransform ≠ [.resize c1ZeroWidthTransform.width none] := by
  refine ⟨rfl, rfl, by decide, by decide⟩

/-- C1 (amended): resize policy keyed on truthiness. Whenever `width` is
truthy (present and nonzero) the single resize operation uses only the
width; when `width` is falsy and `height` is truthy the single resize uses
only the height; when both are falsy no resize operation is performed. -/
theorem c1_resize_priority (t : ImageTransform) :
    (truthyNat t.width = true → squooshOperations t = [.resize t.width none]) ∧
    (truthyNat t.width = false → truthyNat t.height = true →
      squooshOperations t = [.resize none t.height]) ∧
    (truthyNat t.width = false → truthyNat t.height = false →
      squooshOperations t = []) := by
  refine ⟨?_, ?_, ?_⟩
  · intro hw
    simp [squooshOperations, hw]
  · intro hw hh
    simp [squooshOperations, hw, hh]
  · intro hw hh
    simp [squooshOperations, hw, hh]

/-- C1 witness: at `width = 300, height = 200` the resize uses only the
width. -/
theorem c1_resize_priority_witness :
    squooshOperations
      { src := .remote "https://example.com/a.png", width := some 300, height := some 200 }
      = [.resize (some 300) none] :=
  (c1_resize_priority _).1 (by decide)

/-- C9: a remote transform with neither dimension is rejected with a
message containing "width and height are required"; one with a width but
no height is rejected with a message containing "height is required". In
both cases exactly one error is logged and the image is omitted from the
output (`none`); `renderImage` is total, so the dev server keeps
running. -/
theorem c9_remote_validation (url : String) (w : Nat) :
    ((renderImage { src := .remote url }).2 = none ∧
      (renderImage { src := .remote url }).1.length = 1 ∧
      strContainsB ((renderImage { src := .remote url }).1.headD "")
        "width and height are required" = true) ∧
    ((renderImage { src := .remote url, width := some w }).2 = none ∧
      (renderImage { src := .remote url, width := some w }).1.length = 1 ∧
      strContainsB ((renderImage { src := .remote url, width := some w }).1.headD "")
        "height is required" = true) := by
  refine ⟨⟨?_, ?_, ?_⟩, ⟨?_, ?_, ?_⟩⟩ <;>
    simp [renderImage, validateTransform, strContainsB] <;> decide

/- ### Theorems for claims C2 and C8 -/

/-- C2 counterexample: in a watch/dev pass the `load` hook sets `src` to
the image module's own `file:` URL with the original dimensions and
format appended — not to "a fully resolved request URL (to the dev
endpoint)" as claimed: the produced `src` for a concrete penguin image
does not even mention the reserved `/_image` endpoint route. -/
theorem c2_counterexample :
    esmLoad true (fun _ => some ⟨300, 200, "png"⟩) (fun _ => [1, 2, 3])
        (fun _ => "abcd1234") "/assets/penguin.png"
      = some ⟨[],
          ⟨"file:///assets/penguin.png?origWidth=300&origHeight=200&origFormat=png",
            300, 200, "png"⟩⟩ ∧
    strContainsB "file:///assets/penguin.png?origWidth=300&origHeight=200&origFormat=png"
        "/_image" = false := by
  constructor
  · decide
  · decide

/-- C2 (amended): for every image module whose metadata extraction
succeeds, a one-shot (non-watch) build emits the raw file bytes as an
output asset and sets `src` to the placeholder token built from that
asset's assigned handle, while a watch/dev pass emits no asset and no
placeholder and instead sets `src` to the module's absolute `file:` URL
carrying the original width, height and format as extra query
parameters (the dev-endpoint request URL is built from this `src`
later, by the service's `getURL`). -/
theorem c2_load_modes (extractMeta : String → Option MetaDims)
    (readFile : String → List Nat) (emitFile : EmittedAsset → String)
    (id : String) (dims : MetaDims)
    (hid : isImageId id = true) (hm : extractMeta id = some dims) :
    esmLoad false extractMeta readFile emitFile id
      = some ⟨[⟨pathBasename id (extname id ++ "." ++ dims.format), readFile id, "asset"⟩],
          ⟨"__ASTRO_ASSET_IMAGE__"
              ++ emitFile ⟨pathBasename id (extname id ++ "." ++ dims.format),
                  readFile id, "asset"⟩
              ++ "__",
            dims.width, dims.height, dims.format⟩⟩ ∧
    esmLoad true extractMeta readFile emitFile id
      = some ⟨[],
          ⟨urlToString id
              [("origWidth", toString dims.width), ("origHeight", toString dims.height),
               ("origFormat", dims.format)],
            dims.width, dims.height, dims.format⟩⟩ := by
  constructor <;> simp [esmLoad, hid, hm]

/-- C2 witness: both modes evaluated on a concrete penguin image. -/
theorem c2_load_modes_witness :
    esmLoad false (fun _ => some ⟨300, 200, "png"⟩) (fun _ => [1, 2, 3])
        (fun _ => "abcd1234") "/assets/penguin.png"
      = some ⟨[⟨"penguin.png", [1, 2, 3], "asset"⟩],
          ⟨"__ASTRO_ASSET_IMAGE__abcd1234__", 300, 200, "png"⟩⟩ ∧
    esmLoad true (fun _ => some ⟨300, 200, "png"⟩) (fun _ => [1, 2, 3])
        (fun _ => "abcd1234") "/assets/penguin.png"
      = some ⟨[],
          ⟨"file:///assets/penguin.png?origWidth=300&origHeight=200&origFormat=png",
            300, 200, "png"⟩⟩ := by
  have h := c2_load_modes (fun _ => some ⟨300, 200, "png"⟩) (fun _ => [1, 2, 3])
    (fun _ => "abcd1234") "/assets/penguin.png" ⟨300, 200, "png"⟩ (by decide) rfl
  exact h

/-- C8: a module matching the watched image extensions whose metadata
extraction fails is passed through: the `load` hook returns `none`
(nothing), in both watch and non-watch mode, so no asset is emitted, no
code is generated, and no error is raised. -/
theorem c8_extraction_failure_passthrough (watchMode : Bool)
    (extractMeta : String → Option MetaDims) (readFile : String → List Nat)
    (emitFile : EmittedAsset → String) (id : String)
    (hid : isImageId id = true) (hm : extractMeta id = none) :
    esmLoad watchMode extractMeta readFile emitFile id = none := by
  simp [esmLoad, hid, hm]

/-- C8 witness: a `.png` id whose bytes the extractor rejects. -/
theorem c8_extraction_failure_passthrough_witness :
    esmLoad true (fun _ => none) (fun _ => [0]) (fun _ => "h") "/assets/fake.png" = none :=
  c8_extraction_failure_passthrough true (fun _ => none) (fun _ => [0]) (fun _ => "h")
    "/assets/fake.png" (by decide) rfl

/- ### Theorems for claims C5, C6, C7 and C10 -/

/-- C10: when the configured service is not a local service, every
request under the `/_image` prefix is delegated to the next handler with
no file read, no `parseURL` call, no `transform` call and no response. -/
theorem c10_nonlocal_delegates (readFile : String → Option (List Nat))
    (extractMeta : List Nat → Option MetaDims)
    (parseURL : DevRequest → Option ImageTransform)
    (transformFn : List Nat → ImageTransform → List Nat × String)
    (req : DevRequest)
    (hpre : strStartsWith req.pathname "/_image" = true) :
    devImageMiddleware false readFile extractMeta parseURL transformFn req
      = ⟨.next, [], false, false⟩ := by
  simp [devImageMiddleware, hpre]

/-- C10 witness: a concrete `/_image` request under a non-local
service. -/
theorem c10_nonlocal_delegates_witness :
    devImageMiddleware false (fun _ => some [9]) (fun _ => none) (fun _ => none)
        (fun d _ => (d, "webp"))
        ⟨"/_image", [("href", "/a/img.png")]⟩
      = ⟨.next, [], false, false⟩ :=
  c10_nonlocal_delegates (fun _ => some [9]) (fun _ => none) (fun _ => none)
    (fun d _ => (d, "webp")) ⟨"/_image", [("href", "/a/img.png")]⟩ (by decide)

/-- C6: under the `/_image` prefix with a local service, a request with
no `href` query parameter is passed to the next handler, and a request
whose metadata can be recovered neither from the `href` URL's own query
parameters nor by the Metadata Extractor on the file bytes is likewise
passed to the next handler (in neither case is a 404 or any response
produced). -/
theorem c6_responder_delegates (readFile : String → Option (List Nat))
    (extractMeta : List Nat → Option MetaDims)
    (parseURL : DevRequest → Option ImageTransform)
    (transformFn : List Nat → ImageTransform → List Nat × String)
    (req : DevRequest)
    (hpre : strStartsWith req.pathname "/_image" = true) :
    (lookupParam req.params "href" = none →
      devImageMiddleware true readFile extractMeta parseURL transformFn req
        = ⟨.next, [], false, false⟩) ∧
    (∀ fp file, lookupParam req.params "href" = some fp → (fp == "") = false →
      readFile (parseFileURL fp).1 = some file →
      getOrigQueryParams (parseFileURL fp).2 = none →
      extractMeta file = none →
      devImageMiddleware true readFile extractMeta parseURL transformFn req
        = ⟨.next, [(parseFileURL fp).1], false, false⟩) := by
  constructor
  · intro h
    simp [devImageMiddleware, hpre, h]
  · intro fp file h1 h2 h3 h4 h5
    simp [devImageMiddleware, hpre, h1, h2, h3, recoverMeta, h4, h5]

/-- C6 witness: a hrefless request and a request naming unrecognizable
bytes, both answered by delegation. -/
theorem c6_responder_delegates_witness :
    devImageMiddleware true (fun _ => some [9]) (fun _ => none) (fun _ => none)
        (fun d _ => (d, "webp")) ⟨"/_image", []⟩
      = ⟨.next, [], false, false⟩ ∧
    devImageMiddleware true (fun _ => some [9]) (fun _ => none) (fun _ => none)
        (fun d _ => (d, "webp")) ⟨"/_image", [("href", "/a/img.bin")]⟩
      = ⟨.next, ["/a/img.bin"], false, false⟩ := by
  refine ⟨(c6_responder_delegates _ _ _ _ _ (by decide)).1 rfl, ?_⟩
  exact ((c6_responder_delegates _ _ _ _ ⟨"/_image", [("href", "/a/img.bin")]⟩
    (by decide)).2 "/a/img.bin" [9] rfl (by decide) rfl rfl rfl).trans (by decide)

/-- C7: when the active local service's `parseURL` finds no transform in
the request URL, the responder streams the original file bytes verbatim
without ever calling `transform`; on the dev endpoint's actual
(extension-less) path `/_image` the `Content-Type` is
`image/<resolved source format>`. -/
theorem c7_no_transform_passthrough (readFile : String → Option (List Nat))
    (extractMeta : List Nat → Option MetaDims)
    (parseURL : DevRequest → Option ImageTransform)
    (transformFn : List Nat → ImageTransform → List Nat × String)
    (req : DevRequest) (fp : String) (file : List Nat) (m : MetaDims)
    (hpre : strStartsWith req.pathname "/_image" = true)
    (hhref : lookupParam req.params "href" = some fp)
    (hne : (fp == "") = false)
    (hread : readFile (parseFileURL fp).1 = some file)
    (hmeta : recoverMeta (parseFileURL fp).2 file extractMeta = some m)
    (hparse : parseURL req = none) :
    devImageMiddleware true readFile extractMeta parseURL transformFn req
      = ⟨.stream ((mimeGetType req.pathname).getD ("image/" ++ m.format))
            "max-age=360000" file,
          [(parseFileURL fp).1], true, false⟩ ∧
    (req.pathname = "/_image" →
      (mimeGetType req.pathname).getD ("image/" ++ m.format) = "image/" ++ m.format) := by
  constructor
  · simp [devImageMiddleware, hpre, hhref, hne, hread, hmeta, hparse]
  · intro h
    rw [h]
    have hm : mimeGetType "/_image" = none := by decide
    rw [hm]
    rfl

/-- C7 witness: a transformless request for a penguin image is answered
with its original bytes and `image/png`. -/
theorem c7_no_transform_passthrough_witness :
    devImageMiddleware true (fun _ => some [9]) (fun _ => none) (fun _ => none)
        (fun d _ => (d, "webp"))
        ⟨"/_image", [("href", "file:///a/img.png?origWidth=1&origHeight=1&origFormat=png")]⟩
      = ⟨.stream "image/png" "max-age=360000" [9], ["/a/img.png"], true, false⟩ := by
  exact ((c7_no_transform_passthrough (fun _ => some [9]) (fun _ => none) (fun _ => none)
    (fun d _ => (d, "webp"))
    ⟨"/_image", [("href", "file:///a/img.png?origWidth=1&origHeight=1&origFormat=png")]⟩
    "file:///a/img.png?origWidth=1&origHeight=1&origFormat=png" [9] ⟨1, 1, "png"⟩
    (by decide) rfl (by decide) rfl (by decide) rfl).1).trans (by decide)

/-- The concrete transform used in the C5 counterexample. -/
def c5Transform : ImageTransform :=
  ⟨.remote "x", some 10, some 10, none, some "webp"⟩

/-- The concrete request used in the C5 counterexample: its path
`/_image.png` still falls under the `/_image` prefix the middleware
serves, but carries a `.png` extension. -/
def c5Req : DevRequest :=
  ⟨"/_image.png", [("href", "file:///a/img.png?origWidth=1&origHeight=1&origFormat=png")]⟩

/-- C5 counterexample: the source sets `Content-Type` to
`mime.getType(path) || image/<format>` — the MIME lookup by file
extension takes priority and the transform result's format is only the
fallback, the reverse of the claimed order. On the concrete request
`/_image.png` whose transform result has format `webp`, the header is
`image/png`, not `image/webp`. -/
theorem c5_counterexample :
    devImageMiddleware true (fun _ => some [9]) (fun _ => none) (fun _ => some c5Transform)
        (fun d _ => (d, "webp")) c5Req
      = ⟨.stream "image/png" "max-age=360000" [9], ["/a/img.png"], true, true⟩ ∧
    ((fun (d : List Nat) (_ : ImageTransform) => (d, "webp")) [9] c5Transform).2 = "webp" ∧
    "image/png" ≠ "image/webp" := by
  refine ⟨by decide, rfl, by decide⟩

/-- C5 (amended): when the responder performs a transform, the
`Content-Type` is the MIME lookup on the request URL's path, with
`image/<result format>` only as the fallback when that lookup yields
nothing; in particular on the dev endpoint's actual (extension-less) path
`/_image` the lookup always fails, so the header does come from the
transform result's format. -/
theorem c5_content_type (readFile : String → Option (List Nat))
    (extractMeta : List Nat → Option MetaDims)
    (parseURL : DevRequest → Option ImageTransform)
    (transformFn : List Nat → ImageTransform → List Nat × String)
    (req : DevRequest) (fp : String) (file : List Nat) (m : MetaDims)
    (tr : ImageTransform)
    (hpre : strStartsWith req.pathname "/_image" = true)
    (hhref : lookupParam req.params "href" = some fp)
    (hne : (fp == "") = false)
    (hread : readFile (parseFileURL fp).1 = some file)
    (hmeta : recoverMeta (parseFileURL fp).2 file extractMeta = some m)
    (hparse : parseURL req = some tr) :
    devImageMiddleware true readFile extractMeta parseURL transformFn req
      = ⟨.stream ((mimeGetType req.pathname).getD ("image/" ++ (transformFn file tr).2))
            "max-age=360000" (transformFn file tr).1,
          [(parseFileURL fp).1], true, true⟩ ∧
    (req.pathname = "/_image" →
      (mimeGetType req.pathname).getD ("image/" ++ (transformFn file tr).2)
        = "image/" ++ (transformFn file tr).2) := by
  constructor
  · simp [devImageMiddleware, hpre, hhref, hne, hread, hmeta, hparse]
  · intro h
    rw [h]
    have hm : mimeGetType "/_image" = none := by decide
    rw [hm]
    rfl

/-- C5 witness: on the endpoint path `/_image` the header is the
transform result's `image/webp`. -/
theorem c5_content_type_witness :
    devImageMiddleware true (fun _ => some [9]) (fun _ => none)
        (fun _ => some c5Transform) (fun d _ => (d, "webp"))
        ⟨"/_image", [("href", "file:///a/img.png?origWidth=1&origHeight=1&origFormat=png")]⟩
      = ⟨.stream "image/webp" "max-age=360000" [9], ["/a/img.png"], true, true⟩ := by
  exact ((c5_content_type (fun _ => some [9]) (fun _ => none) (fun _ => some c5Transform)
    (fun d _ => (d, "webp"))
    ⟨"/_image", [("href", "file:///a/img.png?origWidth=1&origHeight=1&origFormat=png")]⟩
    "file:///a/img.png?origWidth=1&origHeight=1&origFormat=png" [9] ⟨1, 1, "png"⟩ c5Transform
    (by decide) rfl (by decide) rfl (by decide) rfl).1).trans (by decide)

/- ### Theorems for claims C3 and C4 -/

/-- The character list of `"__"`. -/
theorem dataUU : ("__" : String).data = ['_', '_'] := rfl

/-- The character list of `"_"`. -/
theorem dataU : ("_" : String).data = ['_'] := rfl

/-- Appending the empty character list changes nothing. -/
theorem strAppendNil (s : String) : s ++ String.mk [] = s := by
  cases s with
  | mk l =>
    rw [← strMk_append, List.append_nil]

/-- C3: in the finalize phase, a placeholder token `marker + 8-char-hash`
with a captured postfix group — and likewise a bare token — standing at
the head of a chunk is replaced by the site base path, the final
filename the bundler assigned to that hash, and the captured postfix;
the whole token text disappears and rewriting continues on the rest of
the chunk. Together with the last conjunct (a position where no token
matches is copied through unchanged), this characterizes the whole
left-to-right scan: every token in the chunk is replaced in place. -/
theorem c3_token_replacement (gf : String → String) (base hash sfx post : String)
    (hlen : hash.length = 8) (hhash : hash.data.all isHashChar = true)
    (hdot : sfx.data.all isDotChar = true) (hnd : noDU (sfx.data ++ ['_']) = true) :
    (renderChunk gf base (mkAssetToken hash sfx ++ post)
      = some (base ++ gf hash ++ sfx ++ rewriteAll gf base post)) ∧
    (post.data.head? ≠ some '_' →
      renderChunk gf base (mkBareAssetToken hash ++ post)
        = some (base ++ gf hash ++ rewriteAll gf base post)) ∧
    (∀ (c : Char) (cs : List Char), matchToken (c :: cs) = none →
      replaceTokens gf base (c :: cs)
        = (c :: (replaceTokens gf base cs).1, (replaceTokens gf base cs).2)) := by
  refine ⟨?_, ?_, ?_⟩
  · have hm := matchToken_mk hash.data sfx.data post.data hlen hhash hdot hnd
    have hdata : (mkAssetToken hash sfx ++ post).data
        = assetMarker.data
            ++ (hash.data ++ (['_', '_'] ++ (['_'] ++ (sfx.data ++ (['_', '_'] ++ post.data))))) := by
      simp [mkAssetToken, strData_append, dataUU, dataU, List.append_assoc]
    rw [markerData] at hm
    simp only [List.cons_append, List.nil_append] at hm
    simp only [renderChunk, hdata, markerData]
    simp only [List.cons_append, List.nil_append]
    rw [replaceTokens_match gf base _ _ _ _ _ hm]
    simp only [if_true]
    rw [strMk_append]
    simp only [strMk_data]
    rfl
  · intro hbare
    have hm := matchToken_mk_bare hash.data post.data hlen hhash hbare
    have hdata : (mkBareAssetToken hash ++ post).data
        = assetMarker.data ++ (hash.data ++ (['_', '_'] ++ post.data)) := by
      simp [mkBareAssetToken, strData_append, dataUU, List.append_assoc]
    rw [markerData] at hm
    simp only [List.cons_append, List.nil_append] at hm
    simp only [renderChunk, hdata, markerData]
    simp only [List.cons_append, List.nil_append]
    rw [replaceTokens_match gf base _ _ _ _ _ hm]
    simp only [if_true]
    rw [strMk_append]
    simp only [strMk_data]
    rw [strAppendNil]
    rfl
  · intro c cs hm
    simp only [replaceTokens, List.length_cons, replaceAux, hm]

/-- C3 witness: a postfixed token and a bare token, rewritten concretely
with base `/base/` and the bundler filename `assets/penguin.<hash>.webp`. -/
theorem c3_token_replacement_witness :
    renderChunk (fun h => "assets/penguin." ++ h ++ ".webp") "/base/"
        "__ASTRO_ASSET_IMAGE__abcd1234___q__tail"
      = some "/base/assets/penguin.abcd1234.webpqtail" ∧
    renderChunk (fun h => "assets/penguin." ++ h ++ ".webp") "/base/"
        "__ASTRO_ASSET_IMAGE__abcd1234__tail"
      = some "/base/assets/penguin.abcd1234.webptail" := by
  have h := c3_token_replacement (fun h => "assets/penguin." ++ h ++ ".webp") "/base/"
    "abcd1234" "q" "tail" rfl (by decide) (by decide) (by decide)
  exact ⟨(h.1).trans (by decide), (h.2.1 (by decide)).trans (by decide)⟩

/-- C4: a chunk whose text contains no placeholder token is returned
untouched — the hook answers `none` (`null`: no rewrite, no sourcemap)
and the rewritten text would equal the input — and hence a second
finalize pass over already-rewritten text into which the first pass
introduced no new token leaves it unchanged. -/
theorem c4_no_token_noop (gf : String → String) (base : String) (code : String) :
    (hasToken code = false →
      renderChunk gf base code = none ∧ rewriteAll gf base code = code) ∧
    (∀ out, renderChunk gf base code = some out → hasToken out = false →
      renderChunk gf base out = none) := by
  have key : ∀ s : String, hasToken s = false →
      renderChunk gf base s = none ∧ rewriteAll gf base s = s := by
    intro s hs
    have hflag : (replaceTokens gf base s.data).2 = false := by
      rw [replaceTokens, replaceAux_flag]
      exact hs
    constructor
    · simp only [renderChunk, hflag]
      rfl
    · have huntouched : (replaceTokens gf base s.data).1 = s.data :=
        replaceAux_untouched gf base s.data.length s.data hs
      simp only [rewriteAll, huntouched, strMk_data]
  exact ⟨key code, fun out _ hout => (key out hout).1⟩

/-- C4 witness: a tokenless chunk is left alone, and the once-rewritten
text of a token chunk is left alone by a second pass. -/
theorem c4_no_token_noop_witness :
    renderChunk (fun _ => "penguin.webp") "/" "hello world" = none ∧
    renderChunk (fun _ => "penguin.webp") "/" "/penguin.webpq" = none := by
  refine ⟨((c4_no_token_noop (fun _ => "penguin.webp") "/" "hello world").1 (by decide)).1, ?_⟩
  exact (c4_no_token_noop (fun _ => "penguin.webp") "/"
    "__ASTRO_ASSET_IMAGE__abcd1234___q__").2 "/penguin.webpq" (by decide) (by decide)
